import Mathlib

/-!
Shallow embedding of the Real-estate chatbot front-end
(`App.js`, `ChatInput.js`, `SummaryBox.js`, `PriceChart.js`, `DataTable.js`).

JavaScript strings are modelled as `List Char` (Lean `String` primitives do not
reduce in the kernel); JavaScript values appearing in the data flow are
modelled by `JSVal` (the data is JSON: numbers, strings, null, plus the
`undefined` produced by missing-property access; the numbers occurring here are
integer years and prices, so `Int` is used).  A JavaScript object is modelled
as its insertion-ordered list of key/value pairs with pairwise distinct keys;
`Object.values` is the list of values in that order (none of the keys used by
this program are array-index-like, so insertion order is the enumeration
order).
-/

abbrev JStr := List Char

def jstr (s : String) : JStr := s.toList

inductive JSVal where
  | undefined : JSVal
  | null : JSVal
  | num : Int → JSVal
  | str : JStr → JSVal
deriving DecidableEq, Repr

namespace JSVal

/-- JavaScript truthiness for the values of our model: `undefined`, `null`,
`0` and `""` are falsy, everything else is truthy. -/
def truthy : JSVal → Bool
  | undefined => false
  | null => false
  | num n => decide (n ≠ 0)
  | str s => decide (s ≠ [])

/-- `typeof v === 'number'`. -/
def isNum : JSVal → Bool
  | num _ => true
  | _ => false

end JSVal

/-- `String(v)`, which is also the property-key image of a value used as an
object key. -/
def jsString : JSVal → JStr
  | .undefined => jstr "undefined"
  | .null => jstr "null"
  | .num n => (toString n).toList
  | .str s => s

abbrev JRecord := List (JStr × JSVal)

/-- Property access `r[k]`: the value at the first occurrence of the key,
`undefined` when the key is absent. -/
def getF : JRecord → JStr → JSVal
  | [], _ => .undefined
  | p :: r, k => if p.1 = k then p.2 else getF r k

/-- The `in` operator: key presence. -/
def hasField : JRecord → JStr → Bool
  | [], _ => false
  | p :: r, k => decide (p.1 = k) || hasField r k

/-- Property assignment `r[k] = v`: overwrite in place when the key exists,
otherwise append the key in insertion order. -/
def setF : JRecord → JStr → JSVal → JRecord
  | [], k, v => [(k, v)]
  | p :: r, k, v => if p.1 = k then (k, v) :: r else p :: setF r k v

/-! ### ChatInput.js -/

namespace ChatInput

/-- Whitespace for `String.prototype.trim` (the characters relevant here). -/
def jsWhitespace (c : Char) : Bool :=
  c = ' ' || c = '\t' || c = '\n' || c = '\r' || c = '\x0b' || c = '\x0c'

/-- `value.trim()`. -/
def trim (s : JStr) : JStr :=
  ((s.dropWhile jsWhitespace).reverse.dropWhile jsWhitespace).reverse

/-- The `submit` handler of `ChatInput`:

```js
const submit = () => {
  const q = value.trim();
  if (!q) return;
  if (onQuery) onQuery(q);
  setValue("");
};
```

The result is the new field value together with the list of `onQuery`
invocations performed (the callback is provided). -/
def submit (value : JStr) : JStr × List JStr :=
  let q := trim value
  if q = [] then (value, [])
  else ([], [q])

end ChatInput

/-! ### App.js -/

namespace App

/-- The three `useState` slots of `App`. -/
structure AppState where
  data : Option JRecord
  loading : Bool
  error : Option JSVal
deriving DecidableEq, Repr

/-- `useState(null)`, `useState(false)`, `useState(null)`. -/
def initialState : AppState := { data := none, loading := false, error := none }

/-- The outcome the awaited `fetch`/`res.json()` pair delivers to `handleQuery`:
either the body was parsed (carrying `res.ok` and the parsed JSON), or an
exception reached the `catch` block (network failure or malformed JSON),
carrying `err.message`. -/
inductive FetchResult where
  | parsed : Bool → JRecord → FetchResult
  | thrown : JStr → FetchResult
deriving DecidableEq, Repr

/-- `json.error || 'API error'`. -/
def apiErrorMessage (json : JRecord) : JSVal :=
  if (getF json (jstr "error")).truthy then getF json (jstr "error")
  else .str (jstr "API error")

/-- `err.message || 'Network error'`. -/
def networkErrorMessage (msg : JStr) : JSVal :=
  if msg = [] then .str (jstr "Network error") else .str msg

/-- The synchronous prefix of `handleQuery`:
`setError(null); setLoading(true); setData(null)` (the fetch is issued). -/
def queryStart : AppState := { data := none, loading := true, error := none }

/-- The continuation of `handleQuery` after the awaits settle, applied to the
state current at that moment:

```js
if (!res.ok) { setError(json.error || 'API error'); } else { setData(json); }
// catch: setError(err.message || 'Network error');
// finally: setLoading(false);
``` -/
def applyResolve (s : AppState) : FetchResult → AppState
  | .parsed ok json =>
      if ok then { s with data := some json, loading := false }
      else { s with error := some (apiErrorMessage json), loading := false }
  | .thrown msg =>
      { s with error := some (networkErrorMessage msg), loading := false }

/-- A full, uninterrupted round trip of `handleQuery`. -/
def handleQuery (r : FetchResult) : AppState := applyResolve queryStart r

/-- `handleHomeClick`: `setData(null); setError(null); setLoading(false)`. -/
def handleHomeClick (_ : AppState) : AppState :=
  { data := none, loading := false, error := none }

/-- The events whose handlers write the controller state: a query submission
(the synchronous prefix of `handleQuery`), the resolution of an issued
request, and the home-navigation click. -/
inductive Event where
  | submitQuery : Event
  | resolve : FetchResult → Event
  | homeClick : Event

/-- One complete event-handler step of the page controller. -/
def step (s : AppState) : Event → AppState
  | .submitQuery => queryStart
  | .resolve r => applyResolve s r
  | .homeClick => handleHomeClick s

/-- Running a sequence of event-handler steps. -/
def run (s : AppState) (es : List Event) : AppState := es.foldl step s

/-- The quiescent states observable between complete event-handler steps.
This closes `step` under arbitrary event sequences, a superset of the
sequences the UI can emit, so an invariant proved for it covers every state
the page can reach. -/
inductive Reachable : AppState → Prop where
  | init : Reachable initialState
  | next {s : AppState} (e : Event) : Reachable s → Reachable (step s e)

end App

/-! ### PriceChart.js -/

namespace PriceChart

/-- `const isComparison = data.some(d => d.area);`. -/
def isComparison (data : List JRecord) : Bool :=
  data.any (fun d => (getF d (jstr "area")).truthy)

/-- One iteration of the loop building `yearMap`:

```js
const year = d.year;
if (!yearMap[year]) yearMap[year] = { year };
yearMap[year][d.area] = d.__price_computed__;
```

The keys of the JavaScript object `yearMap` are the string images of the year
values; on records whose `year` is a number — the only shape this component
receives — two such keys coincide exactly when the values do, so the map is
modelled as keyed by the year value itself.  The key written inside the row is
the string image of `d.area`. -/
def yearMapStep (m : List (JSVal × JRecord)) (d : JRecord) : List (JSVal × JRecord) :=
  let y := getF d (jstr "year")
  let m1 :=
    if (m.find? (fun e => decide (e.1 = y))).isSome then m
    else m ++ [(y, [(jstr "year", y)])]
  m1.map (fun e =>
    if e.1 = y then (e.1, setF e.2 (jsString (getF d (jstr "area"))) (getF d (jstr "__price_computed__")))
    else e)

/-- `data.forEach(...)` building `yearMap` from the empty object. -/
def yearMap (data : List JRecord) : List (JSVal × JRecord) :=
  data.foldl yearMapStep []

/-- The numeric reading of a value used by the comparator
`(a, b) => a.year - b.year` (on the numeric years this component receives;
totalised by `0` elsewhere). -/
def numOr0 : JSVal → Int
  | .num n => n
  | _ => 0

def yearNum (r : JRecord) : Int := numOr0 (getF r (jstr "year"))

/-- The comparator `(a, b) => a.year - b.year` as a relation. -/
def yearLE (a b : JRecord) : Prop := yearNum a ≤ yearNum b

instance : DecidableRel yearLE := fun a b => inferInstanceAs (Decidable (yearNum a ≤ yearNum b))

instance : IsTotal JRecord yearLE := ⟨fun a b => Int.le_total (yearNum a) (yearNum b)⟩

instance : IsTrans JRecord yearLE := ⟨fun _ _ _ h h2 => le_trans h h2⟩

/-- `Object.values(yearMap).sort((a, b) => a.year - b.year)`.  `Array.sort`
with a consistent comparator produces a sorted permutation; with pairwise
distinct years that permutation is unique, so a concrete sorting algorithm
(insertion sort) models it. -/
def comparisonChartData (data : List JRecord) : List JRecord :=
  List.insertionSort yearLE ((yearMap data).map Prod.snd)

/-- `[...new Set(data.map(d => d.area))]`: the area values in first-seen
order. -/
def firstSeenAux (seen : List JSVal) : List JSVal → List JSVal
  | [] => []
  | v :: vs => if v ∈ seen then firstSeenAux seen vs else v :: firstSeenAux (v :: seen) vs

def areas (data : List JRecord) : List JSVal :=
  firstSeenAux [] (data.map (fun d => getF d (jstr "area")))

/-- One element of the single-series `chartData`:

```js
{ year: d.year,
  price: d.__price_computed__ !== undefined && d.__price_computed__ !== null
           ? d.__price_computed__
           : Object.values(d).find(v => typeof v === 'number' && v !== d.year) }
``` -/
def singlePoint (d : JRecord) : JRecord :=
  let pc := getF d (jstr "__price_computed__")
  [(jstr "year", getF d (jstr "year")),
   (jstr "price",
     if pc ≠ .undefined ∧ pc ≠ .null then pc
     else
       match (d.map Prod.snd).find? (fun v => v.isNum && decide (v ≠ getF d (jstr "year"))) with
       | some v => v
       | none => .undefined)]

/-- `const chartData = data.map((d) => ({ year: d.year, price: ... }));`. -/
def singleChartData (data : List JRecord) : List JRecord :=
  data.map singlePoint

/-- What the component renders: nothing for missing/empty data, otherwise the
comparison chart (its row data and its series list) or the single-series
chart. -/
inductive ChartRender where
  | empty : ChartRender
  | comparison : List JRecord → List JSVal → ChartRender
  | single : List JRecord → ChartRender
deriving DecidableEq, Repr

/-- Whether the render is the comparison chart. -/
def ChartRender.isComp : ChartRender → Bool
  | .comparison _ _ => true
  | _ => false

/-- Whether the render is the single-series chart. -/
def ChartRender.isSingle : ChartRender → Bool
  | .single _ => true
  | _ => false

/-- The `PriceChart` component. -/
def priceChart (data : List JRecord) : ChartRender :=
  if data = [] then .empty
  else if isComparison data then .comparison (comparisonChartData data) (areas data)
  else .single (singleChartData data)

end PriceChart

/-! ### DataTable.js -/

namespace DataTable

/-- The fixed column whitelist, in priority order. -/
def whitelist : List JStr :=
  [jstr "final location", jstr "year", jstr "city", jstr "__price_computed__"]

/-- `const keys = [...].filter(k => k in rows[0]);` as a function of the first
row. -/
def keys (first : JRecord) : List JStr :=
  whitelist.filter (fun k => hasField first k)

/-- `/__/g` replacement by the empty string: left-to-right, non-overlapping. -/
def stripDunder : List Char → List Char
  | '_' :: '_' :: rest => stripDunder rest
  | c :: rest => c :: stripDunder rest
  | [] => []

/-- `/_/g` replacement by a space. -/
def underscoreToSpace (s : List Char) : List Char :=
  s.map (fun c => if c = '_' then ' ' else c)

/-- `k.replace(/__/g, '').replace(/_/g, ' ').toUpperCase()`. -/
def headerLabel (k : JStr) : JStr :=
  (underscoreToSpace (stripDunder k)).map Char.toUpper

/-- `String(row[k] ?? '')`. -/
def cell (row : JRecord) (k : JStr) : JStr :=
  match getF row k with
  | .null => []
  | .undefined => []
  | v => jsString v

/-- The rendered grid: header labels and the cell text of each row. -/
structure TableRender where
  headers : List JStr
  body : List (List JStr)
deriving DecidableEq, Repr

/-- The `DataTable` component: `null` for missing/empty rows, otherwise the
grid whose columns come from the first row only. -/
def dataTable : List JRecord → Option TableRender
  | [] => none
  | first :: rest =>
      some { headers := (keys first).map headerLabel,
             body := (first :: rest).map (fun row => (keys first).map (cell row)) }

end DataTable

/-! ### SummaryBox.js -/

namespace SummaryBox

/-- The `meta` object `App` passes to `SummaryBox` (the fields the claims
touch; `query_type` and `area` feed fixed badges not modelled further). -/
structure Meta where
  used_price_columns : Option (List JStr)
  areas : Option (List JStr)
deriving DecidableEq, Repr

/-- The data-dependent part of what `SummaryBox` renders: one badge per data
source, and the `Areas analyzed` line when it is shown. -/
structure SummaryRender where
  sourceBadges : List JStr
  areasLine : Option JStr
deriving DecidableEq, Repr

/-- The `SummaryBox` component:

```js
{meta?.used_price_columns && meta.used_price_columns.length > 0 && (
   ... meta.used_price_columns.map(c => <Badge>{c}</Badge>)
   {meta?.areas && ( ... {meta.areas.join(', ')} ... )} )}
```

The whole block — badges and areas line alike — is emitted only when
`used_price_columns` is present and non-empty; inside it, the areas line is
emitted whenever `areas` is present (a JavaScript array is truthy even when
empty). -/
def summaryBox (meta : Meta) : SummaryRender :=
  match meta.used_price_columns with
  | some cs =>
      if cs.length > 0 then
        { sourceBadges := cs,
          areasLine := meta.areas.map (fun as => List.intercalate (jstr ", ") as) }
      else { sourceBadges := [], areasLine := none }
  | none => { sourceBadges := [], areasLine := none }

end SummaryBox

/-! ### Specification-side helpers (used only in theorem statements) -/

namespace PriceChart

/-- The last record of `data` carrying the given year value and area name. -/
def lastMatch (data : List JRecord) (y : JSVal) (a : JStr) : Option JRecord :=
  data.reverse.find?
    (fun d => decide (getF d (jstr "year") = y) && decide (getF d (jstr "area") = .str a))

/-- The value the comparison chart should plot for a year/area combination:
the `__price_computed__` of the last record with that year and area,
`undefined` when the combination is absent from the input. -/
def lastPrice (data : List JRecord) (y : JSVal) (a : JStr) : JSVal :=
  match lastMatch data y a with
  | some d => getF d (jstr "__price_computed__")
  | none => .undefined

/-- A well-formed comparison-chart record: a numeric `year` and a string
`area` whose name is not the literal key `"year"` (the shape the backend
produces for comparison queries). -/
def goodChartRec (d : JRecord) : Bool :=
  (getF d (jstr "year")).isNum &&
    (match getF d (jstr "area") with
     | .str s => decide (s ≠ jstr "year")
     | _ => false)

/-- Well-formedness of a comparison-chart input list. -/
def ChartWF (data : List JRecord) : Prop :=
  ∀ d ∈ data, goodChartRec d = true

instance : DecidablePred ChartWF := fun data =>
  inferInstanceAs (Decidable (∀ d ∈ data, goodChartRec d = true))

/-- The invariant tying one `yearMap` entry to the records already processed:
the row stores its year under `year`, and its other fields are exactly the
areas that occurred with that year, each holding the last price written for
that year/area combination. -/
abbrev entryOK (data : List JRecord) (e : JSVal × JRecord) : Prop :=
  getF e.2 (jstr "year") = e.1 ∧
  (∀ a : JStr, a ≠ jstr "year" → getF e.2 a = lastPrice data e.1 a) ∧
  (∀ a : JStr, a ≠ jstr "year" →
    (hasField e.2 a = true ↔
      ∃ d ∈ data, getF d (jstr "year") = e.1 ∧ getF d (jstr "area") = .str a))

/-- The invariant of the whole `yearMap`: keys are pairwise distinct, every
entry satisfies `entryOK`, and the keys are exactly the years occurring in the
processed records. -/
abbrev mapOK (data : List JRecord) (m : List (JSVal × JRecord)) : Prop :=
  (m.map Prod.fst).Nodup ∧
  (∀ e ∈ m, entryOK data e) ∧
  (∀ y : JSVal, (∃ e ∈ m, e.1 = y) ↔ ∃ d ∈ data, getF d (jstr "year") = y)

/-- The comparison-mode example input of the specification. -/
def exampleChartInput : List JRecord :=
  [[(jstr "year", .num 2021), (jstr "area", .str (jstr "Wakad")),
    (jstr "__price_computed__", .num 5000)],
   [(jstr "year", .num 2021), (jstr "area", .str (jstr "Akurdi")),
    (jstr "__price_computed__", .num 4800)],
   [(jstr "year", .num 2022), (jstr "area", .str (jstr "Wakad")),
    (jstr "__price_computed__", .num 5200)]]

/-- The comparison-mode example output of the specification. -/
def exampleChartOutput : List JRecord :=
  [[(jstr "year", .num 2021), (jstr "Wakad", .num 5000), (jstr "Akurdi", .num 4800)],
   [(jstr "year", .num 2022), (jstr "Wakad", .num 5200)]]

end PriceChart

namespace App

/-- A trace the UI can emit: query A is submitted, home navigation clears the
in-flight state, query B is submitted, then A's stale response resolves before
B's response does. -/
def staleTrace : List Event :=
  [.submitQuery, .homeClick, .submitQuery,
   .resolve (.parsed true [(jstr "summary", .str (jstr "ok"))]),
   .resolve (.parsed false [(jstr "error", .str (jstr "boom"))])]

end App

/-! ## General lemmas about the record model -/

theorem getF_cons (p : JStr × JSVal) (r : JRecord) (k : JStr) :
    getF (p :: r) k = if p.1 = k then p.2 else getF r k := rfl

theorem getF_setF_same (r : JRecord) (k : JStr) (v : JSVal) :
    getF (setF r k v) k = v := by
  induction r with
  | nil => simp [setF, getF]
  | cons p r ih =>
      by_cases h : p.1 = k
      · simp [setF, h, getF]
      · simp [setF, h, getF, ih]

theorem getF_setF_ne (r : JRecord) (k k' : JStr) (v : JSVal) (h : k' ≠ k) :
    getF (setF r k v) k' = getF r k' := by
  have hk : ¬ k = k' := fun hh => h hh.symm
  induction r with
  | nil => simp [setF, getF, hk]
  | cons p r ih =>
      by_cases hp : p.1 = k
      · subst hp
        have hp' : ¬ p.1 = k' := fun hh => h hh.symm
        simp [setF, getF, hp']
      · simp only [setF, if_neg hp, getF_cons]
        by_cases hp' : p.1 = k'
        · simp [hp']
        · simp [hp', ih]

theorem hasField_setF_same (r : JRecord) (k : JStr) (v : JSVal) :
    hasField (setF r k v) k = true := by
  induction r with
  | nil => simp [setF, hasField]
  | cons p r ih =>
      by_cases h : p.1 = k
      · simp [setF, h, hasField]
      · simp [setF, h, hasField, ih]

theorem hasField_setF_ne (r : JRecord) (k k' : JStr) (v : JSVal) (h : k' ≠ k) :
    hasField (setF r k v) k' = hasField r k' := by
  have hk : ¬ k = k' := fun hh => h hh.symm
  induction r with
  | nil => simp [setF, hasField, hk]
  | cons p r ih =>
      by_cases hp : p.1 = k
      · subst hp
        have hp' : ¬ p.1 = k' := fun hh => h hh.symm
        simp [setF, hasField, hp']
      · simp [setF, hp, hasField, ih]

theorem getF_of_hasField_eq_false (r : JRecord) (k : JStr) (h : hasField r k = false) :
    getF r k = .undefined := by
  induction r with
  | nil => rfl
  | cons p r ih =>
      simp only [hasField, Bool.or_eq_false_iff, decide_eq_false_iff_not] at h
      simp [getF, h.1, ih h.2]

theorem JSVal.truthy_iff (v : JSVal) :
    v.truthy = true ↔ v ≠ .undefined ∧ v ≠ .null ∧ v ≠ .num 0 ∧ v ≠ .str [] := by
  cases v <;> simp [JSVal.truthy]

/-! ## Claim C2 — chart mode classification -/

/-- Claim C2, as stated, is false: a record can carry an `area` field whose
value is falsy (here the empty string), in which case `data.some(d => d.area)`
is `false` and the single-series mode is selected although a record carries an
`area` field. -/
theorem claim_C2_counterexample :
    hasField [(jstr "year", JSVal.num 2021), (jstr "area", JSVal.str [])] (jstr "area") = true ∧
    PriceChart.isComparison [[(jstr "year", JSVal.num 2021), (jstr "area", JSVal.str [])]] = false ∧
    (PriceChart.priceChart [[(jstr "year", JSVal.num 2021), (jstr "area", JSVal.str [])]]).isSingle
      = true := by
  decide

/-- Claim C2, amended: for every non-empty record list the component selects
comparison mode if and only if some record's `area` field holds a truthy value
(present and none of `null`, `0`, `""`); otherwise it selects single-series
mode. -/
theorem claim_C2_mode_selection (first : JRecord) (rest : List JRecord) :
    (PriceChart.priceChart (first :: rest)).isComp = PriceChart.isComparison (first :: rest) ∧
    (PriceChart.priceChart (first :: rest)).isSingle = !PriceChart.isComparison (first :: rest) ∧
    (PriceChart.isComparison (first :: rest) = true ↔
      ∃ d ∈ first :: rest,
        getF d (jstr "area") ≠ .undefined ∧ getF d (jstr "area") ≠ .null ∧
        getF d (jstr "area") ≠ .num 0 ∧ getF d (jstr "area") ≠ .str []) := by
  refine ⟨?_, ?_, ?_⟩
  · by_cases h : PriceChart.isComparison (first :: rest) <;>
      simp [PriceChart.priceChart, h, PriceChart.ChartRender.isComp]
  · by_cases h : PriceChart.isComparison (first :: rest) <;>
      simp [PriceChart.priceChart, h, PriceChart.ChartRender.isSingle]
  · simp only [PriceChart.isComparison, List.any_eq_true, JSVal.truthy_iff]

/-! ## Claim C4 — query-input submit contract -/

/-- Claim C4: submitting trims the current field value; if the trimmed value
is empty the submission is a no-op (no callback invocation, field unchanged);
otherwise the callback is invoked exactly once, with exactly the trimmed
string, and the field is cleared. -/
theorem claim_C4_submit (value : JStr) :
    (ChatInput.trim value = [] → ChatInput.submit value = (value, [])) ∧
    (ChatInput.trim value ≠ [] →
      ChatInput.submit value = ([], [ChatInput.trim value])) ∧
    (ChatInput.submit value).2.length ≤ 1 ∧
    (∀ q ∈ (ChatInput.submit value).2, q = ChatInput.trim value ∧ q ≠ []) := by
  by_cases h : ChatInput.trim value = [] <;>
    simp [ChatInput.submit, h]

/-- Witness for C4: submitting `"  Wakad "` invokes the callback once with
`"Wakad"` and clears the field. -/
theorem claim_C4_submit_witness :
    ChatInput.submit (jstr "  Wakad ") = ([], [jstr "Wakad"]) := by
  have h := (claim_C4_submit (jstr "  Wakad ")).2.1 (by decide)
  rw [show ChatInput.trim (jstr "  Wakad ") = jstr "Wakad" from by decide] at h
  exact h

/-! ## Claim C5 — error handling of the request -/

/-- Claim C5, as stated, is false on one edge: when the payload carries an
`error` field holding the empty string, the claim requires the message to
equal that field, but `json.error || 'API error'` takes the generic fallback. -/
theorem claim_C5_counterexample :
    hasField [(jstr "error", JSVal.str [])] (jstr "error") = true ∧
    getF [(jstr "error", JSVal.str [])] (jstr "error") = JSVal.str [] ∧
    App.handleQuery (.parsed false [(jstr "error", JSVal.str [])])
      = { data := none, loading := false, error := some (.str (jstr "API error")) } := by
  decide

/-- Claim C5, amended: on a non-2xx response the controller ends in the Error
state with message equal to the payload's `error` field when that field is
truthy, and the generic fallback `API error` when the field is absent, empty
or otherwise falsy; when the request cannot complete (network failure,
malformed JSON) it ends in the Error state with the failure's message, or the
generic fallback `Network error` when that message is empty — in every case a
non-empty message.  In particular HTTP 404 with body
`{"error":"area not found"}` yields `Error("area not found")`. -/
theorem claim_C5_error_handling (json : JRecord) (msg : JStr) :
    ((getF json (jstr "error")).truthy = true →
      App.handleQuery (.parsed false json)
        = { data := none, loading := false, error := some (getF json (jstr "error")) }) ∧
    ((getF json (jstr "error")).truthy = false →
      App.handleQuery (.parsed false json)
        = { data := none, loading := false, error := some (.str (jstr "API error")) }) ∧
    (msg ≠ [] →
      App.handleQuery (.thrown msg)
        = { data := none, loading := false, error := some (.str msg) }) ∧
    (msg = [] →
      App.handleQuery (.thrown msg)
        = { data := none, loading := false, error := some (.str (jstr "Network error")) }) ∧
    (∀ v, (App.handleQuery (.thrown msg)).error = some v → v ≠ .str []) ∧
    App.handleQuery (.parsed false [(jstr "error", JSVal.str (jstr "area not found"))])
      = { data := none, loading := false, error := some (.str (jstr "area not found")) } := by
  refine ⟨?_, ?_, ?_, ?_, ?_, by decide⟩
  · intro h
    simp [App.handleQuery, App.applyResolve, App.queryStart, App.apiErrorMessage, h]
  · intro h
    simp [App.handleQuery, App.applyResolve, App.queryStart, App.apiErrorMessage, h]
  · intro h
    simp [App.handleQuery, App.applyResolve, App.queryStart, App.networkErrorMessage, h]
  · intro h
    simp [App.handleQuery, App.applyResolve, App.queryStart, App.networkErrorMessage, h]
  · intro v hv
    by_cases h : msg = []
    · simp [App.handleQuery, App.applyResolve, App.queryStart, App.networkErrorMessage, h] at hv
      subst hv
      decide
    · simp [App.handleQuery, App.applyResolve, App.queryStart, App.networkErrorMessage, h] at hv
      subst hv
      simpa using h

/-- Witness for C5: the 404 case with a truthy `error` field, and a concrete
network failure. -/
theorem claim_C5_witness :
    App.handleQuery (.parsed false [(jstr "error", JSVal.str (jstr "area not found"))])
      = { data := none, loading := false, error := some (.str (jstr "area not found")) } ∧
    App.handleQuery (.thrown (jstr "socket hang up"))
      = { data := none, loading := false, error := some (.str (jstr "socket hang up")) } := by
  constructor
  · have h := (claim_C5_error_handling
      [(jstr "error", JSVal.str (jstr "area not found"))] (jstr "socket hang up")).1 (by decide)
    rw [show getF [(jstr "error", JSVal.str (jstr "area not found"))] (jstr "error")
          = JSVal.str (jstr "area not found") from by decide] at h
    exact h
  · exact (claim_C5_error_handling
      [(jstr "error", JSVal.str (jstr "area not found"))] (jstr "socket hang up")).2.2.1
      (by decide)

/-! ## Claim C6 — home-navigation reset -/

/-- Claim C6: from every state, the home-navigation handler resets the
controller to Idle: `data = null`, `error = null`, `loading = false`. -/
theorem claim_C6_home_reset (s : App.AppState) :
    App.handleHomeClick s = { data := none, loading := false, error := none } ∧
    App.step s .homeClick = App.initialState := by
  exact ⟨rfl, rfl⟩

/-! ## Claim C9 — stale-response application -/

/-- Claim C9: a resolution event carries no request identifier and is applied
to whatever state is current when it runs — in particular a resolution
arriving after home navigation cleared the in-flight query still lands — and
when two resolutions run, the fields written by the later one (the data of a
successful response, the message of a failed one) are determined by the later
one alone, in either order; the requests' issuance order plays no role. -/
theorem claim_C9_stale_response (s : App.AppState) (j j1 j2 json : JRecord) (msg : JStr) :
    (App.step s (.resolve (.parsed true j))).data = some j ∧
    (App.step s (.resolve (.parsed false json))).error = some (App.apiErrorMessage json) ∧
    (App.step s (.resolve (.thrown msg))).error = some (App.networkErrorMessage msg) ∧
    App.step (App.step s .homeClick) (.resolve (.parsed true j))
      = { data := some j, loading := false, error := none } ∧
    (App.run s [.resolve (.parsed true j1), .resolve (.parsed true j2)]).data = some j2 ∧
    (App.run s [.resolve (.parsed true j2), .resolve (.parsed true j1)]).data = some j1 := by
  exact ⟨rfl, rfl, rfl, rfl, rfl, rfl⟩

/-! ## Claim C10 — state-flag consistency invariant -/

/-- Claim C10, as stated, is false in its classification part: after
`staleTrace` — query A, home navigation, query B, then A's stale success
resolving before B's failure — the reachable quiescent state carries both a
non-null `data` and a non-null `error`, so it does not correspond to exactly
one of Idle/Loading/Success/Error, and query B's outcome has merged with
query A's stale result instead of replacing it wholesale. -/
theorem claim_C10_counterexample :
    App.run App.initialState App.staleTrace
      = { data := some [(jstr "summary", JSVal.str (jstr "ok"))], loading := false,
          error := some (.str (jstr "boom")) } ∧
    ({ data := some [(jstr "summary", JSVal.str (jstr "ok"))], loading := false,
       error := some (.str (jstr "boom")) } : App.AppState).data ≠ none ∧
    ({ data := some [(jstr "summary", JSVal.str (jstr "ok"))], loading := false,
       error := some (.str (jstr "boom")) } : App.AppState).error ≠ none := by
  decide

/-- Claim C10, amended: every reachable quiescent state satisfies the stated
invariant — `loading = true` implies `data = null` and `error = null` — so the
Loading state is unambiguous and a freshly started query always replaces the
previous result wholesale; but after a stale resolution of a superseded query
the quiescent state can carry `data` and `error` simultaneously, so the
correspondence to exactly one of Idle/Loading/Success/Error holds only for
traces in which every response resolves before the next query starts. -/
theorem claim_C10_loading_invariant (s : App.AppState) (hs : App.Reachable s)
    (hl : s.loading = true) : s.data = none ∧ s.error = none := by
  revert hl
  induction hs with
  | init => intro hl; simp [App.initialState] at hl
  | next e hs ih =>
      intro hl
      cases e with
      | submitQuery => exact ⟨rfl, rfl⟩
      | resolve r =>
          cases r with
          | parsed ok json =>
              cases ok <;> simp [App.step, App.applyResolve] at hl
          | thrown m => simp [App.step, App.applyResolve] at hl
      | homeClick => simp [App.step, App.handleHomeClick] at hl

/-- Witness for C10: the state right after a query starts is reachable and
loading, and indeed carries no data and no error. -/
theorem claim_C10_witness :
    App.queryStart.data = none ∧ App.queryStart.error = none := by
  exact claim_C10_loading_invariant App.queryStart
    (App.Reachable.next App.Event.submitQuery App.Reachable.init) rfl

/-! ## Claim C7 — table rendering -/

/-- Claim C7: for every non-empty row list the rendered columns are the
intersection, in the fixed priority order, of the whitelist with the keys of
the first row only; header labels strip the double-underscore marker, turn
single underscores into spaces and upper-case (`__price_computed__` renders
as `PRICE COMPUTED`); every cell is the stringified value, with null and
undefined rendered as the empty string. -/
theorem claim_C7_table_rendering (first : JRecord) (rest : List JRecord) :
    ∃ t, DataTable.dataTable (first :: rest) = some t ∧
      t.headers = (DataTable.keys first).map DataTable.headerLabel ∧
      List.Sublist (DataTable.keys first) DataTable.whitelist ∧
      (∀ k, k ∈ DataTable.keys first ↔ k ∈ DataTable.whitelist ∧ hasField first k = true) ∧
      (∀ rest2, DataTable.dataTable (first :: rest2)
        = some { headers := (DataTable.keys first).map DataTable.headerLabel,
                 body := (first :: rest2).map
                   (fun row => (DataTable.keys first).map (DataTable.cell row)) }) ∧
      DataTable.headerLabel (jstr "__price_computed__") = jstr "PRICE COMPUTED" ∧
      t.body.length = rest.length + 1 ∧
      (∀ i : Nat, t.body[i]? = ((first :: rest)[i]?).map
        (fun row => (DataTable.keys first).map (DataTable.cell row))) ∧
      (∀ row k, (getF row k = .null ∨ getF row k = .undefined) → DataTable.cell row k = []) ∧
      (∀ row k n, getF row k = .num n → DataTable.cell row k = (toString n).toList) ∧
      (∀ row k s, getF row k = .str s → DataTable.cell row k = s) := by
  refine ⟨_, rfl, rfl, ?_, ?_, fun rest2 => rfl, by decide, by simp [DataTable.dataTable], ?_,
    ?_, ?_, ?_⟩
  · exact List.filter_sublist DataTable.whitelist
  · intro k
    simp [DataTable.keys, List.mem_filter]
  · intro i
    exact List.getElem?_map (fun row => (DataTable.keys first).map (DataTable.cell row))
      (first :: rest) i
  · intro row k h
    rcases h with h | h <;> simp [DataTable.cell, h]
  · intro row k n h
    simp [DataTable.cell, h, jsString]
  · intro row k s h
    simp [DataTable.cell, h, jsString]

/-- Witness for C7: the claim's example first row yields exactly the four
whitelist columns in order, with `PRICE COMPUTED` as the last header. -/
theorem claim_C7_witness :
    DataTable.cell [(jstr "year", JSVal.num 2021)] (jstr "year") = jstr "2021" ∧
    DataTable.cell [(jstr "c", JSVal.null)] (jstr "c") = [] ∧
    DataTable.keys
        [(jstr "final location", JSVal.str (jstr "Wakad")), (jstr "year", JSVal.num 2021),
         (jstr "city", JSVal.str (jstr "Pune")), (jstr "__price_computed__", JSVal.num 5000)]
      = DataTable.whitelist := by
  obtain ⟨t, ht, hh, hsub, hmem, hfst, hlabel, hlen, hbody, hnull, hnum, hstr⟩ :=
    claim_C7_table_rendering [(jstr "year", JSVal.num 2021)] []
  refine ⟨?_, ?_, by decide⟩
  · rw [hnum [(jstr "year", JSVal.num 2021)] (jstr "year") 2021 (by decide)]
    decide
  · exact hnull [(jstr "c", JSVal.null)] (jstr "c") (Or.inl (by decide))

/-! ## Claim C8 — summary renderer area list -/

/-- Claim C8, as stated, is false: the areas line lives inside the block that
is rendered only when `used_price_columns` is present and non-empty, so
metadata carrying a list of analyzed areas but no data-source list displays no
area list at all. -/
theorem claim_C8_counterexample :
    (SummaryBox.summaryBox
        { used_price_columns := none, areas := some [jstr "Wakad", jstr "Akurdi"] }).areasLine
      = none ∧
    ({ used_price_columns := none, areas := some [jstr "Wakad", jstr "Akurdi"] }
        : SummaryBox.Meta).areas ≠ none := by
  decide

/-- Claim C8, amended: every data-source identifier in the metadata is
displayed as its own badge, and whenever the metadata carries a list of
analyzed area names AND a non-empty data-source list, the renderer displays
the comma-joined list of those names. -/
theorem claim_C8_summary (m : SummaryBox.Meta) :
    (∀ cs, m.used_price_columns = some cs →
      ∀ c ∈ cs, c ∈ (SummaryBox.summaryBox m).sourceBadges) ∧
    (∀ cs as2, m.used_price_columns = some cs → cs ≠ [] → m.areas = some as2 →
      (SummaryBox.summaryBox m).areasLine = some (List.intercalate (jstr ", ") as2)) := by
  obtain ⟨cols, ars⟩ := m
  constructor
  · intro cs hcs c hc
    cases cols with
    | none => simp at hcs
    | some cs2 =>
        have e1 : cs2 = cs := by simpa using hcs
        subst e1
        cases cs2 with
        | nil => exact absurd hc (List.not_mem_nil c)
        | cons c0 cs0 => simpa [SummaryBox.summaryBox] using hc
  · intro cs as2 h1 h2 h3
    cases cols with
    | none => simp at h1
    | some cs2 =>
        have e1 : cs2 = cs := by simpa using h1
        subst e1
        have e3 : ars = some as2 := by simpa using h3
        subst e3
        cases cs2 with
        | nil => exact absurd rfl h2
        | cons c0 cs0 => simp [SummaryBox.summaryBox]

/-- Witness for C8: with a non-empty source list and two areas, the source
badge is displayed and the areas line is the comma-joined list. -/
theorem claim_C8_witness :
    jstr "price" ∈ (SummaryBox.summaryBox
        { used_price_columns := some [jstr "price"],
          areas := some [jstr "Wakad", jstr "Akurdi"] }).sourceBadges ∧
    (SummaryBox.summaryBox
        { used_price_columns := some [jstr "price"],
          areas := some [jstr "Wakad", jstr "Akurdi"] }).areasLine
      = some (jstr "Wakad, Akurdi") := by
  constructor
  · exact (claim_C8_summary
      { used_price_columns := some [jstr "price"],
        areas := some [jstr "Wakad", jstr "Akurdi"] }).1 [jstr "price"] rfl (jstr "price")
      (by decide)
  · rw [(claim_C8_summary
      { used_price_columns := some [jstr "price"],
        areas := some [jstr "Wakad", jstr "Akurdi"] }).2 [jstr "price"]
      [jstr "Wakad", jstr "Akurdi"] rfl (by decide) rfl]
    decide

/-! ## Claim C3 — single-series plotted value -/

theorem exists_of_find?_eq_some {α : Type} {p : α → Bool} {l : List α} {v : α}
    (h : l.find? p = some v) :
    p v = true ∧ ∃ l1 l2, l = l1 ++ v :: l2 ∧ ∀ x ∈ l1, p x = false := by
  induction l with
  | nil => simp at h
  | cons a l ih =>
      cases hpa : p a with
      | true =>
          have he : some a = some v := by simpa [List.find?, hpa] using h
          obtain rfl : a = v := by injection he
          exact ⟨hpa, [], l, rfl, by simp⟩
      | false =>
          have h2 : l.find? p = some v := by simpa [List.find?, hpa] using h
          obtain ⟨hv, l1, l2, rfl, hl1⟩ := ih h2
          refine ⟨hv, a :: l1, l2, rfl, ?_⟩
          intro x hx
          rcases List.mem_cons.mp hx with rfl | hx
          · exact hpa
          · exact hl1 x hx

/-- Claim C3, as stated, is false: the fallback
`Object.values(d).find(v => typeof v === 'number' && v !== d.year)` compares
each value against the year VALUE, not the field against the year FIELD; in
`{year: 2020, price: 2020}` the field `price` is a numeric field other than
the year field, yet the plotted value is `undefined` because its value equals
the year value. -/
theorem claim_C3_counterexample :
    PriceChart.isComparison [[(jstr "year", JSVal.num 2020), (jstr "price", JSVal.num 2020)]]
      = false ∧
    getF [(jstr "year", JSVal.num 2020), (jstr "price", JSVal.num 2020)] (jstr "price")
      = JSVal.num 2020 ∧
    hasField [(jstr "year", JSVal.num 2020), (jstr "price", JSVal.num 2020)]
      (jstr "__price_computed__") = false ∧
    PriceChart.singleChartData [[(jstr "year", JSVal.num 2020), (jstr "price", JSVal.num 2020)]]
      = [[(jstr "year", JSVal.num 2020), (jstr "price", JSVal.undefined)]] := by
  decide

/-- Claim C3, amended: in single-series mode each record is mapped, in input
order, to a `{year, price}` pair whose plotted value is `__price_computed__`
when present and non-null, and otherwise the first numeric VALUE of the record
that differs from the year value — `undefined` when no such value exists. -/
theorem claim_C3_single_series (data : List JRecord) (d : JRecord) :
    PriceChart.singleChartData data = data.map PriceChart.singlePoint ∧
    (∀ i : Nat, (PriceChart.singleChartData data)[i]? = (data[i]?).map PriceChart.singlePoint) ∧
    (getF d (jstr "__price_computed__") ≠ .undefined → getF d (jstr "__price_computed__") ≠ .null →
      PriceChart.singlePoint d
        = [(jstr "year", getF d (jstr "year")),
           (jstr "price", getF d (jstr "__price_computed__"))]) ∧
    ((getF d (jstr "__price_computed__") = .undefined ∨ getF d (jstr "__price_computed__") = .null) →
      (∃ v l1 l2, d.map Prod.snd = l1 ++ v :: l2 ∧ v.isNum = true ∧
          v ≠ getF d (jstr "year") ∧
          (∀ w ∈ l1, ¬(w.isNum = true ∧ w ≠ getF d (jstr "year"))) ∧
          PriceChart.singlePoint d
            = [(jstr "year", getF d (jstr "year")), (jstr "price", v)]) ∨
      ((∀ w ∈ d.map Prod.snd, ¬(w.isNum = true ∧ w ≠ getF d (jstr "year"))) ∧
        PriceChart.singlePoint d
          = [(jstr "year", getF d (jstr "year")), (jstr "price", JSVal.undefined)])) := by
  refine ⟨rfl, ?_, ?_, ?_⟩
  · intro i
    exact List.getElem?_map PriceChart.singlePoint data i
  · intro h1 h2
    simp [PriceChart.singlePoint, h1, h2]
  · intro h
    have hcond : ¬(getF d (jstr "__price_computed__") ≠ .undefined ∧
        getF d (jstr "__price_computed__") ≠ .null) := by
      rcases h with h | h <;> simp [h]
    cases hf : (d.map Prod.snd).find?
        (fun v => v.isNum && decide (v ≠ getF d (jstr "year"))) with
    | none =>
        right
        constructor
        · intro w hw
          have := List.find?_eq_none.mp hf w hw
          simpa [Bool.and_eq_true, decide_eq_true_eq] using this
        · simp only [PriceChart.singlePoint]
          rw [if_neg hcond, hf]
    | some v =>
        left
        obtain ⟨hv, l1, l2, heq, hl1⟩ := exists_of_find?_eq_some hf
        simp only [Bool.and_eq_true, decide_eq_true_eq] at hv
        refine ⟨v, l1, l2, heq, hv.1, hv.2, ?_, ?_⟩
        · intro w hw
          have := hl1 w hw
          simpa [Bool.and_eq_true, decide_eq_true_eq] using this
        · simp only [PriceChart.singlePoint]
          rw [if_neg hcond, hf]

/-- Witness for C3: the claim's example record plots its computed price. -/
theorem claim_C3_witness :
    PriceChart.singlePoint
        [(jstr "year", JSVal.num 2020), (jstr "__price_computed__", JSVal.num 4000)]
      = [(jstr "year", JSVal.num 2020), (jstr "price", JSVal.num 4000)] := by
  have h := (claim_C3_single_series []
      [(jstr "year", JSVal.num 2020), (jstr "__price_computed__", JSVal.num 4000)]).2.2.1
      (by decide) (by decide)
  rw [show getF [(jstr "year", JSVal.num 2020), (jstr "__price_computed__", JSVal.num 4000)]
        (jstr "year") = JSVal.num 2020 from by decide] at h
  rw [show getF [(jstr "year", JSVal.num 2020), (jstr "__price_computed__", JSVal.num 4000)]
        (jstr "__price_computed__") = JSVal.num 4000 from by decide] at h
  exact h

/-! ## Claim C1 — comparison-mode chart transformation -/

namespace PriceChart

theorem goodChartRec_iff (d : JRecord) :
    goodChartRec d = true ↔
      (∃ n : Int, getF d (jstr "year") = .num n) ∧
      (∃ s : JStr, getF d (jstr "area") = .str s ∧ s ≠ jstr "year") := by
  unfold goodChartRec
  cases hY : getF d (jstr "year") <;> cases hA : getF d (jstr "area") <;>
    simp [JSVal.isNum]

theorem lastMatch_append (pre : List JRecord) (d : JRecord) (y : JSVal) (a : JStr) :
    lastMatch (pre ++ [d]) y a
      = if getF d (jstr "year") = y ∧ getF d (jstr "area") = .str a then some d
        else lastMatch pre y a := by
  unfold lastMatch
  rw [List.reverse_append]
  by_cases h : getF d (jstr "year") = y ∧ getF d (jstr "area") = .str a
  · simp [List.find?, h.1, h.2, h]
  · have hb : (decide (getF d (jstr "year") = y)
        && decide (getF d (jstr "area") = JSVal.str a)) = false := by
      rcases not_and_or.mp h with h1 | h1 <;> simp [h1]
    simp [List.find?, hb, h]

theorem lastPrice_append (pre : List JRecord) (d : JRecord) (y : JSVal) (a : JStr) :
    lastPrice (pre ++ [d]) y a
      = if getF d (jstr "year") = y ∧ getF d (jstr "area") = .str a
        then getF d (jstr "__price_computed__") else lastPrice pre y a := by
  unfold lastPrice
  rw [lastMatch_append]
  by_cases h : getF d (jstr "year") = y ∧ getF d (jstr "area") = .str a <;> simp [h]

theorem lastPrice_eq_undef (pre : List JRecord) (y : JSVal) (a : JStr)
    (h : ∀ d ∈ pre, getF d (jstr "year") ≠ y) : lastPrice pre y a = .undefined := by
  unfold lastPrice lastMatch
  rw [List.find?_eq_none.mpr]
  intro d hd
  simp [h d (List.mem_reverse.mp hd)]

end PriceChart

namespace PriceChart

theorem not_key_of_find?_false {m : List (JSVal × JRecord)} {y : JSVal}
    (h : (m.find? (fun e => decide (e.1 = y))).isSome = false) :
    ∀ e ∈ m, e.1 ≠ y := by
  intro e he heq
  have h2 : (m.find? (fun e => decide (e.1 = y))).isSome = true :=
    List.find?_isSome.mpr ⟨e, he, by simp [heq]⟩
  rw [h2] at h
  exact Bool.true_eq_false.mp h

theorem entryOK_snoc_other (pre : List JRecord) (d : JRecord) (e : JSVal × JRecord)
    (he : entryOK pre e) (hne : getF d (jstr "year") ≠ e.1) :
    entryOK (pre ++ [d]) e := by
  obtain ⟨h1, h2, h3⟩ := he
  refine ⟨h1, ?_, ?_⟩
  · intro a ha
    rw [lastPrice_append, if_neg (fun hc => hne hc.1)]
    exact h2 a ha
  · intro a ha
    rw [h3 a ha]
    constructor
    · rintro ⟨d2, hd2, hy2, ha2⟩
      exact ⟨d2, List.mem_append.mpr (Or.inl hd2), hy2, ha2⟩
    · rintro ⟨d2, hd2, hy2, ha2⟩
      rcases List.mem_append.mp hd2 with hmm | hmm
      · exact ⟨d2, hmm, hy2, ha2⟩
      · have hdd : d2 = d := by simpa using hmm
        subst hdd
        exact absurd hy2 hne

theorem entryOK_snoc_update (pre : List JRecord) (d : JRecord) (r : JRecord) (s : JStr)
    (hs : getF d (jstr "area") = .str s) (hsy : s ≠ jstr "year")
    (he : entryOK pre (getF d (jstr "year"), r)) :
    entryOK (pre ++ [d])
      (getF d (jstr "year"), setF r s (getF d (jstr "__price_computed__"))) := by
  obtain ⟨h1, h2, h3⟩ := he
  refine ⟨?_, ?_, ?_⟩
  · rw [getF_setF_ne r s (jstr "year") _ (fun hh => hsy hh.symm)]
    exact h1
  · intro a ha
    by_cases has : a = s
    · subst has
      rw [getF_setF_same, lastPrice_append, if_pos ⟨rfl, hs⟩]
    · rw [getF_setF_ne r s a _ has, lastPrice_append, if_neg ?hc]
      case hc =>
        intro hc
        have h4 : JSVal.str s = JSVal.str a := hs.symm.trans hc.2
        have h5 : s = a := by injection h4
        exact has h5.symm
      exact h2 a ha
  · intro a ha
    by_cases has : a = s
    · subst has
      constructor
      · intro _
        exact ⟨d, List.mem_append.mpr (Or.inr (by simp)), rfl, hs⟩
      · intro _
        exact hasField_setF_same r a _
    · rw [hasField_setF_ne r s a _ has, h3 a ha]
      constructor
      · rintro ⟨d2, hd2, hy2, ha2⟩
        exact ⟨d2, List.mem_append.mpr (Or.inl hd2), hy2, ha2⟩
      · rintro ⟨d2, hd2, hy2, ha2⟩
        rcases List.mem_append.mp hd2 with hmm | hmm
        · exact ⟨d2, hmm, hy2, ha2⟩
        · have hdd : d2 = d := by simpa using hmm
          subst hdd
          have h4 : JSVal.str s = JSVal.str a := hs.symm.trans ha2
          have h5 : s = a := by injection h4
          exact absurd h5.symm has

end PriceChart

namespace PriceChart

theorem mapOK_step (pre : List JRecord) (m : List (JSVal × JRecord)) (d : JRecord)
    (hm : mapOK pre m) (hd : goodChartRec d = true) :
    mapOK (pre ++ [d]) (yearMapStep m d) := by
  obtain ⟨⟨n, hn⟩, ⟨s, hs, hsy⟩⟩ := (goodChartRec_iff d).mp hd
  obtain ⟨hnd, hent, hmem⟩ := hm
  have hjs : jsString (getF d (jstr "area")) = s := by
    rw [hs]
    rfl
  by_cases hfind : (m.find? (fun e => decide (e.1 = getF d (jstr "year")))).isSome = true
  · -- the year is already a key: the matching row is updated in place
    have hstep : yearMapStep m d = m.map (fun e =>
        if e.1 = getF d (jstr "year")
        then (e.1, setF e.2 s (getF d (jstr "__price_computed__")))
        else e) := by
      simp [yearMapStep, hjs, hfind]
    rw [hstep]
    refine ⟨?_, ?_, ?_⟩
    · have hk : (m.map (fun e =>
          if e.1 = getF d (jstr "year")
          then (e.1, setF e.2 s (getF d (jstr "__price_computed__")))
          else e)).map Prod.fst = m.map Prod.fst := by
        rw [List.map_map]
        refine List.map_congr_left ?_
        intro e he
        by_cases hey : e.1 = getF d (jstr "year") <;> simp [hey]
      rw [hk]
      exact hnd
    · intro e' he'
      obtain ⟨e, he, rfl⟩ := List.mem_map.mp he'
      by_cases hey : e.1 = getF d (jstr "year")
      · rw [if_pos hey]
        have he2 : entryOK pre (getF d (jstr "year"), e.2) := by
          rw [← hey]
          exact hent e he
        have h8 := entryOK_snoc_update pre d e.2 s hs hsy he2
        rw [hey]
        exact h8
      · rw [if_neg hey]
        exact entryOK_snoc_other pre d e (hent e he) (fun hh => hey hh.symm)
    · intro y
      have hk2 : (∃ e ∈ m.map (fun e =>
            if e.1 = getF d (jstr "year")
            then (e.1, setF e.2 s (getF d (jstr "__price_computed__")))
            else e), e.1 = y) ↔ (∃ e ∈ m, e.1 = y) := by
        constructor
        · rintro ⟨e', he', hke⟩
          obtain ⟨e, he, rfl⟩ := List.mem_map.mp he'
          refine ⟨e, he, ?_⟩
          by_cases hey : e.1 = getF d (jstr "year")
          · rw [if_pos hey] at hke
            exact hke
          · rw [if_neg hey] at hke
            exact hke
        · rintro ⟨e, he, hke⟩
          refine ⟨(if e.1 = getF d (jstr "year")
              then (e.1, setF e.2 s (getF d (jstr "__price_computed__")))
              else e), List.mem_map.mpr ⟨e, he, rfl⟩, ?_⟩
          by_cases hey : e.1 = getF d (jstr "year")
          · rw [if_pos hey]
            exact hke
          · rw [if_neg hey]
            exact hke
      rw [hk2, hmem y]
      constructor
      · rintro ⟨d2, hd2, hy2⟩
        exact ⟨d2, List.mem_append.mpr (Or.inl hd2), hy2⟩
      · rintro ⟨d2, hd2, hy2⟩
        rcases List.mem_append.mp hd2 with hmm | hmm
        · exact ⟨d2, hmm, hy2⟩
        · have hdd : d2 = d := by simpa using hmm
          have hy3 : getF d (jstr "year") = y := by
            rw [← hdd]
            exact hy2
          obtain ⟨e0, he0, hp0⟩ := List.find?_isSome.mp hfind
          have hk0 : e0.1 = getF d (jstr "year") := by simpa using hp0
          obtain ⟨d3, hd3, hy4⟩ := (hmem (getF d (jstr "year"))).mp ⟨e0, he0, hk0⟩
          exact ⟨d3, hd3, hy4.trans hy3⟩
  · -- the year is a fresh key: a new row is appended and then updated
    have hfind2 : (m.find? (fun e => decide (e.1 = getF d (jstr "year")))).isSome = false := by
      rwa [Bool.not_eq_true] at hfind
    have hnotin : ∀ e ∈ m, e.1 ≠ getF d (jstr "year") := not_key_of_find?_false hfind2
    have hnopre : ¬ ∃ d2 ∈ pre, getF d2 (jstr "year") = getF d (jstr "year") := by
      intro hex
      obtain ⟨e, he, hkey⟩ := (hmem (getF d (jstr "year"))).mpr hex
      exact hnotin e he hkey
    have hnoyear : ∀ d2 ∈ pre, getF d2 (jstr "year") ≠ getF d (jstr "year") :=
      fun d2 hd2 heq => hnopre ⟨d2, hd2, heq⟩
    have hys : ¬ (jstr "year" = s) := fun hh => hsy hh.symm
    have h6 : setF [(jstr "year", getF d (jstr "year"))] s (getF d (jstr "__price_computed__"))
        = [(jstr "year", getF d (jstr "year")), (s, getF d (jstr "__price_computed__"))] := by
      simp [setF, hys]
    have h5 : m.map (fun e =>
        if e.1 = getF d (jstr "year")
        then (e.1, setF e.2 s (getF d (jstr "__price_computed__")))
        else e) = m := by
      conv_rhs => rw [← List.map_id m]
      refine List.map_congr_left ?_
      intro e he
      simp [hnotin e he]
    have hstep : yearMapStep m d
        = m ++ [(getF d (jstr "year"),
            [(jstr "year", getF d (jstr "year")), (s, getF d (jstr "__price_computed__"))])] := by
      simp only [yearMapStep, hjs]
      rw [hfind2]
      rw [if_neg (by simp)]
      rw [List.map_append, h5]
      simp [h6]
    rw [hstep]
    refine ⟨?_, ?_, ?_⟩
    · rw [List.map_append, List.nodup_append]
      refine ⟨hnd, by simp, ?_⟩
      intro x hx hx2
      simp only [List.map_cons, List.map_nil, List.mem_singleton] at hx2
      subst hx2
      obtain ⟨e, he, hke⟩ := List.mem_map.mp hx
      exact hnotin e he hke
    · intro e' he'
      rcases List.mem_append.mp he' with he | he
      · exact entryOK_snoc_other pre d e' (hent e' he) (fun hh => hnotin e' he hh.symm)
      · have hde : e' = (getF d (jstr "year"),
            [(jstr "year", getF d (jstr "year")), (s, getF d (jstr "__price_computed__"))]) := by
          simpa using he
        subst hde
        refine ⟨by simp [getF], ?_, ?_⟩
        · intro a ha
          have hne1 : ¬ (jstr "year" = a) := fun hh => ha hh.symm
          rw [lastPrice_append]
          by_cases has : a = s
          · subst has
            rw [if_pos ⟨rfl, hs⟩]
            simp [getF, hne1]
          · rw [if_neg ?hc]
            case hc =>
              intro hc
              have h4 : JSVal.str s = JSVal.str a := hs.symm.trans hc.2
              have h7 : s = a := by injection h4
              exact has h7.symm
            rw [lastPrice_eq_undef pre _ a hnoyear]
            have hsa : ¬ (s = a) := fun hh => has hh.symm
            simp [getF, hne1, hsa]
        · intro a ha
          have hne1 : ¬ (jstr "year" = a) := fun hh => ha hh.symm
          constructor
          · intro hhf
            have hsa : s = a := by
              simpa [hasField, hne1] using hhf
            subst hsa
            exact ⟨d, List.mem_append.mpr (Or.inr (by simp)), rfl, hs⟩
          · rintro ⟨d2, hd2, hy2, ha2⟩
            rcases List.mem_append.mp hd2 with hmm | hmm
            · exact absurd ⟨d2, hmm, hy2⟩ hnopre
            · have hdd : d2 = d := by simpa using hmm
              have ha3 : getF d (jstr "area") = JSVal.str a := by
                rw [← hdd]
                exact ha2
              have h4 : JSVal.str s = JSVal.str a := hs.symm.trans ha3
              have h7 : s = a := by injection h4
              rw [← h7]
              simp [hasField]
    · intro y
      constructor
      · rintro ⟨e, he, rfl⟩
        rcases List.mem_append.mp he with hmm | hmm
        · obtain ⟨d2, hd2, hy2⟩ := (hmem e.1).mp ⟨e, hmm, rfl⟩
          exact ⟨d2, List.mem_append.mpr (Or.inl hd2), hy2⟩
        · have hde : e = (getF d (jstr "year"),
              [(jstr "year", getF d (jstr "year")), (s, getF d (jstr "__price_computed__"))]) := by
            simpa using hmm
          refine ⟨d, List.mem_append.mpr (Or.inr (by simp)), ?_⟩
          rw [hde]
      · rintro ⟨d2, hd2, hy2⟩
        rcases List.mem_append.mp hd2 with hmm | hmm
        · obtain ⟨e, he, hke⟩ := (hmem y).mpr ⟨d2, hmm, hy2⟩
          exact ⟨e, List.mem_append.mpr (Or.inl he), hke⟩
        · have hdd : d2 = d := by simpa using hmm
          have hy3 : getF d (jstr "year") = y := by
            rw [← hdd]
            exact hy2
          exact ⟨(getF d (jstr "year"),
            [(jstr "year", getF d (jstr "year")), (s, getF d (jstr "__price_computed__"))]),
            List.mem_append.mpr (Or.inr (by simp)), hy3⟩

end PriceChart

namespace PriceChart

theorem mapOK_foldl (ds : List JRecord) : ∀ (pre : List JRecord) (m : List (JSVal × JRecord)),
    mapOK pre m → (∀ d ∈ ds, goodChartRec d = true) →
    mapOK (pre ++ ds) (ds.foldl yearMapStep m) := by
  induction ds with
  | nil =>
      intro pre m hm _
      simpa using hm
  | cons d ds ih =>
      intro pre m hm hwf
      have h1 := mapOK_step pre m d hm (hwf d (by simp))
      have h2 := ih (pre ++ [d]) (yearMapStep m d) h1 (fun d2 hd2 => hwf d2 (by simp [hd2]))
      simpa [List.append_assoc] using h2

theorem mapOK_yearMap (data : List JRecord) (h : ChartWF data) :
    mapOK data (yearMap data) := by
  have h0 : mapOK [] ([] : List (JSVal × JRecord)) := by
    refine ⟨by simp, by simp, ?_⟩
    intro y
    constructor
    · rintro ⟨e, he, -⟩
      exact absurd he (List.not_mem_nil e)
    · rintro ⟨d2, hd2, -⟩
      exact absurd hd2 (List.not_mem_nil d2)
  have h2 := mapOK_foldl data [] [] h0 h
  simpa using h2

end PriceChart

/-- Claim C1: on well-formed comparison input (numeric years, string area
names other than the literal `"year"`), the transformed rows are sorted
strictly ascending by year (hence exactly one row per distinct year), the
rows' years are exactly the years of the input, every row stores its numeric
year under `year`, and for every other key the row holds the last input price
for that year/area combination, the key being present exactly when the
combination occurs in the input (absent combinations leave the field absent —
a gap, not zero).  The specification's example evaluates to exactly the
claimed output. -/
theorem claim_C1_comparison_transform :
    (∀ data : List JRecord, PriceChart.ChartWF data →
      List.Sorted (fun x y : Int => x < y)
        ((PriceChart.comparisonChartData data).map PriceChart.yearNum) ∧
      (∀ y : JSVal,
        (∃ r ∈ PriceChart.comparisonChartData data, getF r (jstr "year") = y) ↔
        (∃ d ∈ data, getF d (jstr "year") = y)) ∧
      (∀ r ∈ PriceChart.comparisonChartData data,
        (getF r (jstr "year")).isNum = true ∧
        (∀ a : JStr, a ≠ jstr "year" →
          getF r a = PriceChart.lastPrice data (getF r (jstr "year")) a ∧
          (hasField r a = true ↔
            ∃ d ∈ data, getF d (jstr "year") = getF r (jstr "year") ∧
              getF d (jstr "area") = .str a)))) ∧
    PriceChart.comparisonChartData PriceChart.exampleChartInput
      = PriceChart.exampleChartOutput := by
  refine ⟨?_, by decide⟩
  intro data h
  obtain ⟨hnd, hent, hmem⟩ := PriceChart.mapOK_yearMap data h
  have hperm : (PriceChart.comparisonChartData data).Perm
      ((PriceChart.yearMap data).map Prod.snd) :=
    List.perm_insertionSort PriceChart.yearLE _
  have hmm : ∀ r, r ∈ PriceChart.comparisonChartData data ↔
      ∃ e ∈ PriceChart.yearMap data, e.2 = r := by
    intro r
    rw [hperm.mem_iff]
    exact List.mem_map
  refine ⟨?_, ?_, ?_⟩
  · -- sortedness, strict thanks to distinct years
    have hsorted : List.Sorted PriceChart.yearLE (PriceChart.comparisonChartData data) :=
      List.sorted_insertionSort PriceChart.yearLE _
    have hpair : List.Pairwise (fun x y : Int => x ≤ y)
        ((PriceChart.comparisonChartData data).map PriceChart.yearNum) := by
      rw [List.pairwise_map]
      exact hsorted
    have hnodup : ((PriceChart.comparisonChartData data).map PriceChart.yearNum).Nodup := by
      have hp2 : ((PriceChart.comparisonChartData data).map PriceChart.yearNum).Perm
          (((PriceChart.yearMap data).map Prod.snd).map PriceChart.yearNum) :=
        hperm.map PriceChart.yearNum
      rw [hp2.nodup_iff]
      have he2 : ((PriceChart.yearMap data).map Prod.snd).map PriceChart.yearNum
          = ((PriceChart.yearMap data).map Prod.fst).map PriceChart.numOr0 := by
        rw [List.map_map, List.map_map]
        refine List.map_congr_left ?_
        intro e he
        show PriceChart.numOr0 (getF e.2 (jstr "year")) = PriceChart.numOr0 e.1
        rw [(hent e he).1]
      rw [he2]
      refine List.Nodup.map_on ?_ hnd
      intro x hx y2 hy2 hxy
      obtain ⟨ex, hex, hkx⟩ := List.mem_map.mp hx
      obtain ⟨d2, hd2, hyd⟩ := (hmem x).mp ⟨ex, hex, hkx⟩
      obtain ⟨⟨nx, hnx⟩, -⟩ := (PriceChart.goodChartRec_iff d2).mp (h d2 hd2)
      have hxnum : x = JSVal.num nx := by rw [← hyd, hnx]
      obtain ⟨ey, hey, hky⟩ := List.mem_map.mp hy2
      obtain ⟨d3, hd3, hyd3⟩ := (hmem y2).mp ⟨ey, hey, hky⟩
      obtain ⟨⟨ny, hny⟩, -⟩ := (PriceChart.goodChartRec_iff d3).mp (h d3 hd3)
      have hynum : y2 = JSVal.num ny := by rw [← hyd3, hny]
      rw [hxnum, hynum] at hxy ⊢
      have h9 : nx = ny := hxy
      rw [h9]
    have hcomb := hpair.and hnodup
    refine hcomb.imp ?_
    intro a b hab
    exact lt_of_le_of_ne hab.1 hab.2
  · -- the output years are exactly the input years
    intro y
    constructor
    · rintro ⟨r, hr, hy⟩
      obtain ⟨e, he, rfl⟩ := (hmm r).mp hr
      exact (hmem y).mp ⟨e, he, ((hent e he).1).symm.trans hy⟩
    · intro hex
      obtain ⟨e, he, hkey⟩ := (hmem y).mpr hex
      refine ⟨e.2, (hmm e.2).mpr ⟨e, he, rfl⟩, ?_⟩
      rw [(hent e he).1, hkey]
  · -- per-row content
    intro r hr
    obtain ⟨e, he, rfl⟩ := (hmm r).mp hr
    have hOK := hent e he
    have hkeyYear : getF e.2 (jstr "year") = e.1 := hOK.1
    constructor
    · obtain ⟨d2, hd2, hyd⟩ := (hmem e.1).mp ⟨e, he, rfl⟩
      obtain ⟨⟨n2, hn2⟩, -⟩ := (PriceChart.goodChartRec_iff d2).mp (h d2 hd2)
      rw [hkeyYear, ← hyd, hn2]
      rfl
    · intro a ha
      constructor
      · rw [hkeyYear]
        exact hOK.2.1 a ha
      · rw [hkeyYear]
        exact hOK.2.2 a ha

/-- Witness for C1: the specification's example input is well-formed and its
transformed rows are sorted strictly ascending by year. -/
theorem claim_C1_witness :
    PriceChart.ChartWF PriceChart.exampleChartInput ∧
    List.Sorted (fun x y : Int => x < y)
      ((PriceChart.comparisonChartData PriceChart.exampleChartInput).map PriceChart.yearNum) := by
  refine ⟨by decide, ?_⟩
  exact (claim_C1_comparison_transform.1 PriceChart.exampleChartInput (by decide)).1
